import Mathlib

/-!
Shallow embedding of the `knx_step_bridge` Home Assistant custom integration
(`src/knx_step_bridge/__init__.py`) and proofs about its event-translation
logic: payload decoding, step/percent unit conversion, debounce guarding and
event routing.

Python floats only enter through the monotonic clock timestamps; they are
modelled as rationals.  The conversion arithmetic (`math.floor`, `math.ceil`,
`round` on float quotients of small integers) is modelled by the exact
integer arithmetic it computes; each definition's comment records the
correspondence.
-/

namespace KnxStepBridge

/-- ASCII whitespace stripped by Python `int` when parsing a string. -/
def isPyWhitespace (c : Char) : Bool :=
  c = ' ' || c = '\t' || c = '\n' || c = '\r' || c = '\x0b' || c = '\x0c'

/-- Numeric value of one digit in the given base (10 or 16). -/
def digitVal (base : Nat) (c : Char) : Option Nat :=
  if '0' ≤ c ∧ c ≤ '9' then
    if c.toNat - '0'.toNat < base then some (c.toNat - '0'.toNat) else none
  else if base = 16 ∧ 'a' ≤ c ∧ c ≤ 'f' then some (c.toNat - 'a'.toNat + 10)
  else if base = 16 ∧ 'A' ≤ c ∧ c ≤ 'F' then some (c.toNat - 'A'.toNat + 10)
  else none

/-- Digit tail of a Python integer literal: further digits, optionally
    separated by single underscores. -/
def digitsTail (base : Nat) (acc : Nat) : List Char → Option Nat
  | [] => some acc
  | '_' :: c :: cs =>
    match digitVal base c with
    | some d => digitsTail base (acc * base + d) cs
    | none => none
  | c :: cs =>
    match digitVal base c with
    | some d => digitsTail base (acc * base + d) cs
    | none => none

/-- Digit group of a Python integer literal: must begin with a digit. -/
def digitsBody (base : Nat) : List Char → Option Nat
  | c :: cs =>
    match digitVal base c with
    | some d => digitsTail base d cs
    | none => none
  | [] => none

/-- After a `0x` marker Python permits one optional underscore before the
    first digit. -/
def hexTail : List Char → Option Nat
  | '_' :: rest => digitsBody 16 rest
  | cs => digitsBody 16 cs

/-- Body of a base-16 literal: Python `int(s, 16)` accepts an optional
    `0x`/`0X` marker before the digits. -/
def hexBody : List Char → Option Nat
  | '0' :: 'x' :: rest => hexTail rest
  | '0' :: 'X' :: rest => hexTail rest
  | cs => digitsBody 16 cs

/-- Literal body in the given base. -/
def literalBody (base : Nat) (cs : List Char) : Option Nat :=
  if base = 16 then hexBody cs else digitsBody base cs

/-- Optional `+`/`-` sign before the literal body. -/
def signedLiteral (base : Nat) (cs : List Char) : Option Int :=
  match cs with
  | c :: rest =>
    if c = '+' then (literalBody base rest).map (fun n => (n : Int))
    else if c = '-' then (literalBody base rest).map (fun n => -(n : Int))
    else (literalBody base cs).map (fun n => (n : Int))
  | [] => none

/-- Leading and trailing whitespace removal performed by Python `int`. -/
def pyStrip (cs : List Char) : List Char :=
  ((cs.dropWhile isPyWhitespace).reverse.dropWhile isPyWhitespace).reverse

/-- Python `int(s, base)` for bases 10 and 16 on ASCII input; `none` models
    `ValueError`. -/
def pyIntOfString (base : Nat) (s : String) : Option Int :=
  signedLiteral base (pyStrip s.data)

/-- Shapes of inbound KNX payloads (the event's `data` field), mirroring the
    dynamic `isinstance` dispatch in `_payload_to_int`: native int, string,
    list/tuple, bytes/bytearray, or anything else. -/
inductive Payload where
  | pint (n : Int)
  | pstr (s : String)
  | plist (items : List Payload)
  | pbytes (bs : List Nat)
  | pother

/-- The source's `payload.startswith("0x")` test. -/
def startsWith0x (s : String) : Bool :=
  match s.data with
  | c1 :: c2 :: _ => c1 = '0' && c2 = 'x'
  | _ => false

/-- Python `int(x)` coercion applied to `payload[0]` in the list branch:
    ints pass through, strings and byte strings parse in base 10, anything
    else raises `TypeError` (`none`). -/
def pyIntCoerce : Payload → Option Int
  | .pint n => some n
  | .pstr s => pyIntOfString 10 s
  | .pbytes bs => pyIntOfString 10 (String.mk (bs.map Char.ofNat))
  | .plist _ => none
  | .pother => none

/-- Embeds `KnxStepBridgeManager._payload_to_int` (lines 136-152): native
    ints are returned as-is; strings parse base-16 when they carry the `0x`
    marker, base-10 otherwise; a non-empty list yields its coerced first
    element; a non-empty byte string yields its first byte; everything else
    (empty sequences included) yields `none`. -/
def payload_to_int : Payload → Option Int
  | .pint n => some n
  | .pstr s => if startsWith0x s then pyIntOfString 16 s else pyIntOfString 10 s
  | .plist [] => none
  | .plist (x :: _) => pyIntCoerce x
  | .pbytes [] => none
  | .pbytes (b :: _) => some (b : Int)
  | .pother => none

/-- Step-to-percent conversion of `_handle_knx_event` (lines 113-114): clamp
    the decoded value to `[0, max_step]`, then `floor(step * 100 / max_step)`.
    `Int.fdiv` is mathematical floor division; on these small integers the
    float quotient rounds to a value with the same floor, so it matches
    `int(math.floor(step * 100 / max_step))`. -/
def step_to_percent (raw : Int) (max_step : Nat) : Int :=
  let step := max 0 (min (max_step : Int) raw)
  (step * 100).fdiv (max_step : Int)

/-- Raw-byte-to-percent step of the percent branch (lines 123-124):
    `int(round((raw / 255.0) * 100))` clamped to `[0, 100]`.  The exact
    quotient `raw * 100 / 255 = raw * 40 / 102` is never an exact
    half-integer (51 divides `40 * raw` only when it divides `raw`, which
    gives an integer), so Python's banker rounding agrees with
    `floor(x + 1/2) = (raw * 40 + 51) fdiv 102`, and the float computation
    is close enough to the exact quotient not to cross a rounding boundary
    for any byte-sized input. -/
def byte_to_percent (raw : Int) : Int :=
  max 0 (min 100 ((raw * 40 + 51).fdiv 102))

/-- Percent-to-step conversion (lines 126-132): 0 stays 0, otherwise
    `ceil(percent * max_step / 100)` capped at `max_step`; for an integer
    `a`, `(a + 99) fdiv 100` equals the ceiling of `a / 100`. -/
def percent_to_step_core (percent : Int) (max_step : Nat) : Int :=
  if percent ≤ 0 then 0
  else
    let s := (percent * (max_step : Int) + 99).fdiv 100
    if s > (max_step : Int) then (max_step : Int) else s

/-- Whole percent branch as a pair, matching the spec's
    `percent_to_step(percent_byte, max_step) -> (percent, step)`. -/
def percent_to_step (raw : Int) (max_step : Nat) : Int × Int :=
  (byte_to_percent raw, percent_to_step_core (byte_to_percent raw) max_step)

/-- Embeds the `Bridge` dataclass (lines 49-56).  Timestamps are rationals
    standing for the float seconds of the monotonic clock, both defaulted to
    0.0 as in the source. -/
structure Bridge where
  name : String
  step_address : String
  percent_address : String
  max_step : Nat
  last_sent_step_ts : ℚ := 0
  last_sent_percent_ts : ℚ := 0
deriving DecidableEq

/-- One outbound `knx.send` service call (lines 157-166 and 173-182). -/
structure SendCall where
  address : String
  payload : Int
  dptType : String
deriving DecidableEq

/-- The fields of an inbound `knx_event` that the handler reads. -/
structure EventData where
  address : Option String := none
  destination : Option String := none
  data : Option Payload := none

/-- Address extraction (lines 93-95): `data.get("address") or
    data.get("destination")`, with a falsy result (missing key or empty
    string) rejected by the `if not address` guard. -/
def effAddress (e : EventData) : Option String :=
  let a := match e.address with
    | some s => if s = "" then e.destination else some s
    | none => e.destination
  match a with
  | some s => if s = "" then none else some s
  | none => none

/-- Embeds `_find_bridge_by_address` (lines 81-85): first bridge whose step
    or percent address equals the given address. -/
def find_bridge_by_address (bridges : List Bridge) (address : String) :
    Option Bridge :=
  match bridges with
  | [] => none
  | b :: rest =>
    if address = b.step_address ∨ address = b.percent_address then some b
    else find_bridge_by_address rest address

/-- Embeds `_send_percent` (lines 154-166): clamp to `[0, 100]`, stamp
    `last_sent_percent_ts` with the send-time clock read, emit the call. -/
def send_percent (b : Bridge) (percent : Int) (sendNow : ℚ) :
    Bridge × SendCall :=
  let p := max 0 (min 100 percent)
  ({ b with last_sent_percent_ts := sendNow },
   { address := b.percent_address, payload := p, dptType := "percent" })

/-- Embeds `_send_step` (lines 170-182): clamp to `[0, max_step]`, stamp
    `last_sent_step_ts` with the send-time clock read, emit the call. -/
def send_step (b : Bridge) (step : Int) (sendNow : ℚ) :
    Bridge × SendCall :=
  let s := max 0 (min (b.max_step : Int) step)
  ({ b with last_sent_step_ts := sendNow },
   { address := b.step_address, payload := s, dptType := "1byte_unsigned" })

/-- Direction dispatch, debounce check and conversion of `_handle_knx_event`
    for the resolved bridge (lines 109-134).  `now` is the clock read of
    line 107; `sendNow` the later read inside `_send_percent`/`_send_step`.
    Returns the updated bridge and the outbound call, if any. -/
def handle_for_bridge (debounce : ℚ) (address : String) (raw : Int)
    (now sendNow : ℚ) (bridge : Bridge) : Bridge × Option SendCall :=
  if address = bridge.step_address then
    if now - bridge.last_sent_step_ts < debounce then (bridge, none)
    else
      ((send_percent bridge (step_to_percent raw bridge.max_step) sendNow).1,
       some (send_percent bridge (step_to_percent raw bridge.max_step) sendNow).2)
  else if address = bridge.percent_address then
    if now - bridge.last_sent_percent_ts < debounce then (bridge, none)
    else
      ((send_step bridge (percent_to_step raw bridge.max_step).2 sendNow).1,
       some (send_step bridge (percent_to_step raw bridge.max_step).2 sendNow).2)
  else (bridge, none)

/-- Per-bridge continuation of the handler: decode the payload (drop when
    undecodable, line 102-105), then dispatch on direction. -/
def bridgeStep (debounce : ℚ) (address : String) (payload : Payload)
    (now sendNow : ℚ) (bridge : Bridge) : Bridge × Option SendCall :=
  match payload_to_int payload with
  | none => (bridge, none)
  | some raw => handle_for_bridge debounce address raw now sendNow bridge

/-- Bridge resolution fused with the in-place mutation of the resolved
    bridge: the Python handler mutates the object returned by
    `_find_bridge_by_address` inside the manager's shared list, rendered
    here by rebuilding the list around the first match. -/
def routeToBridge (k : Bridge → Bridge × Option SendCall) :
    List Bridge → String → List Bridge × Option SendCall
  | [], _ => ([], none)
  | b :: rest, address =>
    if address = b.step_address ∨ address = b.percent_address then
      ((k b).1 :: rest, (k b).2)
    else
      (b :: (routeToBridge k rest address).1, (routeToBridge k rest address).2)

/-- Embeds `_handle_knx_event` (lines 91-134) as a function from the bridge
    list to the updated bridge list plus the dispatched call, if any.  Every
    drop path returns the list unchanged with no call. -/
def handle_knx_event (debounce : ℚ) (bridges : List Bridge) (e : EventData)
    (now sendNow : ℚ) : List Bridge × Option SendCall :=
  match effAddress e with
  | none => (bridges, none)
  | some address =>
    match e.data with
    | none => (bridges, none)
    | some payload =>
      routeToBridge (bridgeStep debounce address payload now sendNow)
        bridges address

/-! ### Arithmetic correspondence lemmas -/

/-- Floor division by a natural number is the floor of the rational
    quotient. -/
theorem fdiv_eq_floor_div (a : Int) (b : Nat) :
    a.fdiv (b : Int) = ⌊(a : ℚ) / (b : ℚ)⌋ := by
  rw [Rat.floor_intCast_div_natCast, Int.fdiv_eq_ediv a (by exact_mod_cast Nat.zero_le b)]

/-- The raw-byte-to-percent arithmetic is exactly rounding of the linear
    rescale: `(raw * 40 + 51) fdiv 102` is the nearest integer to
    `raw * 100 / 255` (never a tie, so every tie-breaking rule agrees). -/
theorem byte_to_percent_eq_round (raw : Int) :
    byte_to_percent raw = max 0 (min 100 (round ((raw : ℚ) * 100 / 255))) := by
  unfold byte_to_percent
  have h102 : ((102 : Nat) : Int) = (102 : Int) := rfl
  have : (raw * 40 + 51).fdiv (102 : Int) = round ((raw : ℚ) * 100 / 255) := by
    rw [round_eq, ← h102, fdiv_eq_floor_div]
    congr 1
    push_cast
    ring
  rw [this]

/-- The percent-to-step arithmetic is exactly the ceiling of the rational
    quotient: `(a + 99) fdiv 100 = ⌈a / 100⌉`. -/
theorem fdiv_add_99_eq_ceil (a : Int) : (a + 99).fdiv 100 = ⌈(a : ℚ) / 100⌉ := by
  have hceil : ⌈(a : ℚ) / 100⌉ = -⌊-((a : ℚ) / 100)⌋ := by
    rw [Int.floor_neg]; simp
  have hneg : -((a : ℚ) / 100) = ((-a : Int) : ℚ) / ((100 : Nat) : ℚ) := by
    push_cast; ring
  have h100 : ((100 : Nat) : Int) = (100 : Int) := rfl
  rw [hceil, hneg, Rat.floor_intCast_div_natCast, ← h100, fdiv_eq_floor_div,
    Rat.floor_intCast_div_natCast]
  omega

/-! ### Unit converter properties -/

/-- Floor division of `100 a` by `m` over the integers, for non-negative
    `a`, is natural-number floor division. -/
theorem fdiv_hundred_eq_nat (a : Int) (m : Nat) (h : 0 ≤ a) :
    (a * 100).fdiv (m : Int) = ((a.toNat * 100) / m : Nat) := by
  obtain ⟨n, rfl⟩ := Int.eq_ofNat_of_zero_le h
  rw [show ((n : Int) * 100) = ((n * 100 : Nat) : Int) by push_cast; ring]
  rw [← Int.ofNat_fdiv]
  simp

/-- The step-to-percent result, written with natural-number floor division
    on the clamped step. -/
theorem step_to_percent_eq_nat (raw : Int) (m : Nat) :
    step_to_percent raw m = (((max 0 (min (m : Int) raw)).toNat * 100) / m : Nat) := by
  have h0 : (0 : Int) ≤ max 0 (min (m : Int) raw) := le_max_left 0 _
  exact fdiv_hundred_eq_nat _ m h0

/-- The step-to-percent result is never negative. -/
theorem step_to_percent_nonneg (raw : Int) (m : Nat) : 0 ≤ step_to_percent raw m := by
  rw [step_to_percent_eq_nat]
  exact Int.ofNat_nonneg _

/-- The step-to-percent result never exceeds 100. -/
theorem step_to_percent_le (raw : Int) (m : Nat) (h1 : 1 ≤ m) :
    step_to_percent raw m ≤ 100 := by
  rw [step_to_percent_eq_nat]
  have hclamp : (max 0 (min (m : Int) raw)).toNat ≤ m := by
    have : max 0 (min (m : Int) raw) ≤ (m : Int) :=
      max_le (Int.ofNat_nonneg m) (min_le_left _ _)
    omega
  have hmul : (max 0 (min (m : Int) raw)).toNat * 100 ≤ m * 100 :=
    Nat.mul_le_mul_right 100 hclamp
  have : (max 0 (min (m : Int) raw)).toNat * 100 / m ≤ m * 100 / m :=
    Nat.div_le_div_right hmul
  have hm : m * 100 / m = 100 := Nat.mul_div_cancel_left 100 (by omega)
  omega

/-- The step-to-percent conversion is monotone in the decoded step. -/
theorem step_to_percent_mono (m : Nat) {s1 s2 : Int} (h : s1 ≤ s2) :
    step_to_percent s1 m ≤ step_to_percent s2 m := by
  rw [step_to_percent_eq_nat, step_to_percent_eq_nat]
  have hc : (max 0 (min (m : Int) s1)).toNat ≤ (max 0 (min (m : Int) s2)).toNat := by
    have : max 0 (min (m : Int) s1) ≤ max 0 (min (m : Int) s2) :=
      max_le_max (le_refl 0) (min_le_min (le_refl _) h)
    omega
  exact_mod_cast Nat.div_le_div_right (Nat.mul_le_mul_right 100 hc)

/-- A full step converts to exactly 100 percent. -/
theorem step_to_percent_max (m : Nat) (h1 : 1 ≤ m) :
    step_to_percent (m : Int) m = 100 := by
  rw [step_to_percent_eq_nat]
  have hclamp : max 0 (min (m : Int) (m : Int)) = (m : Int) := by
    rw [min_self]
    exact max_eq_right (Int.ofNat_nonneg m)
  rw [hclamp]
  have : (m : Int).toNat = m := Int.toNat_ofNat m
  rw [this, Nat.mul_div_cancel_left 100 (by omega)]
  rfl

/-- Percent 100 converts to exactly `max_step`. -/
theorem percent_to_step_core_hundred (m : Nat) :
    percent_to_step_core 100 m = (m : Int) := by
  simp only [percent_to_step_core]
  rw [if_neg (by omega)]
  have hs : ((100 : Int) * (m : Int) + 99).fdiv 100 = (m : Int) := by
    rw [Int.fdiv_eq_ediv _ (by omega)]
    omega
  rw [hs, if_neg (by omega)]

/-- A nonzero percent converts to a step of at least 1. -/
theorem percent_to_step_core_pos (m : Nat) (p : Int) (h1 : 1 ≤ m) (hp : 1 ≤ p) :
    1 ≤ percent_to_step_core p m := by
  simp only [percent_to_step_core]
  rw [if_neg (by omega)]
  have hq : 1 ≤ p * (m : Int) := by
    have hm : (1 : Int) ≤ (m : Int) := by exact_mod_cast h1
    nlinarith
  have hs : 1 ≤ (p * (m : Int) + 99).fdiv 100 := by
    rw [Int.fdiv_eq_ediv _ (by omega)]
    omega
  split
  · exact_mod_cast h1
  · exact hs

/-! ### Payload decoder properties -/

/-- Dropping while a predicate holds distributes over appending an element
    the predicate rejects. -/
theorem dropWhile_append_last (p : Char → Bool) (l : List Char) (c : Char)
    (hc : p c = false) :
    List.dropWhile p (l ++ [c]) = List.dropWhile p l ++ [c] := by
  induction l with
  | nil => simp [List.dropWhile, hc]
  | cons a l ih =>
    by_cases ha : p a
    · simp [List.dropWhile_cons, ha, ih]
    · simp [List.dropWhile_cons, ha]

/-- Stripping whitespace around a character list whose head is not
    whitespace keeps that head in place. -/
theorem pyStrip_cons (c : Char) (cs : List Char) (hc : isPyWhitespace c = false) :
    pyStrip (c :: cs) =
      c :: (List.dropWhile isPyWhitespace cs.reverse).reverse := by
  unfold pyStrip
  rw [List.dropWhile_cons]
  rw [if_neg (by simp [hc])]
  rw [show (c :: cs).reverse = cs.reverse ++ [c] by simp]
  rw [dropWhile_append_last _ _ _ hc]
  simp

/-- A string carrying the `0x` marker never takes a sign branch of the
    parse (its first character is `0`), so a successful base-16 parse
    yields a non-negative value. -/
theorem pyIntOfString_hex_nonneg (s : String) (v : Int)
    (hx : startsWith0x s = true) (hv : pyIntOfString 16 s = some v) : 0 ≤ v := by
  obtain ⟨rest, hd⟩ : ∃ rest, s.data = '0' :: 'x' :: rest := by
    unfold startsWith0x at hx
    match hsd : s.data with
    | [] => rw [hsd] at hx; simp at hx
    | [c] => rw [hsd] at hx; simp at hx
    | c1 :: c2 :: r =>
      rw [hsd] at hx
      simp only [Bool.and_eq_true, decide_eq_true_eq] at hx
      exact ⟨r, by rw [hx.1, hx.2]⟩
  unfold pyIntOfString at hv
  rw [hd, pyStrip_cons _ _ (by decide)] at hv
  simp only [signedLiteral] at hv
  rw [if_neg (by decide), if_neg (by decide)] at hv
  rcases hlb : literalBody 16
      ('0' :: (List.dropWhile isPyWhitespace ('x' :: rest).reverse).reverse)
    with _ | a
  · rw [hlb] at hv
    simp at hv
  · rw [hlb] at hv
    simp at hv
    omega

/-! ### Claim theorems: unit converter -/

/-- C1: for every integer step (including out-of-range values) and every
    max_step in [1,255], `step_to_percent` clamps the step to
    `[0, max_step]`, returns the floor of `step * 100 / max_step`, and the
    result lies in `[0, 100]`. -/
theorem claim_C1 (raw : Int) (m : Nat) (h1 : 1 ≤ m) (h2 : m ≤ 255) :
    step_to_percent raw m = ⌊((max 0 (min (m : Int) raw) : Int) : ℚ) * 100 / (m : ℚ)⌋
    ∧ 0 ≤ step_to_percent raw m ∧ step_to_percent raw m ≤ 100 := by
  refine ⟨?_, step_to_percent_nonneg raw m, step_to_percent_le raw m h1⟩
  show ((max 0 (min (m : Int) raw)) * 100).fdiv (m : Int) = _
  rw [fdiv_eq_floor_div]
  congr 1
  push_cast
  ring

/-- C1 witness at step 7, max_step 3. -/
theorem claim_C1_witness :
    0 ≤ step_to_percent 7 3 ∧ step_to_percent 7 3 ≤ 100 :=
  ⟨(claim_C1 7 3 (by decide) (by decide)).2.1,
   (claim_C1 7 3 (by decide) (by decide)).2.2⟩

/-- C9: for every fixed max_step in [1,255], `step_to_percent` is monotone
    non-decreasing in the step, and converts max_step itself to exactly
    100. -/
theorem claim_C9 (m : Nat) (h1 : 1 ≤ m) (h2 : m ≤ 255) :
    (∀ s1 s2 : Int, s1 ≤ s2 → step_to_percent s1 m ≤ step_to_percent s2 m)
    ∧ step_to_percent (m : Int) m = 100 :=
  ⟨fun _ _ h => step_to_percent_mono m h, step_to_percent_max m h1⟩

/-- C9 witness at max_step 3: monotone on 1 ≤ 2 and full step maps to
    100. -/
theorem claim_C9_witness :
    step_to_percent 1 3 ≤ step_to_percent 2 3
    ∧ step_to_percent ((3 : Nat) : Int) 3 = 100 :=
  ⟨(claim_C9 3 (by decide) (by decide)).1 1 2 (by decide),
   (claim_C9 3 (by decide) (by decide)).2⟩

/-- C2: for max_step in [1,255], raw byte 0 maps to step 0 and raw byte
    255 to max_step; for max_step = 3, clamped percents 33, 34, 66, 67 and
    100 give steps 1, 2, 2, 3, 3, and raw byte 255 gives step 3. -/
theorem claim_C2 (m : Nat) (h1 : 1 ≤ m) (h2 : m ≤ 255) :
    (percent_to_step 0 m).2 = 0
    ∧ (percent_to_step 255 m).2 = (m : Int)
    ∧ (∀ raw : Int,
        ((percent_to_step raw 3).1 = 33 → (percent_to_step raw 3).2 = 1)
        ∧ ((percent_to_step raw 3).1 = 34 → (percent_to_step raw 3).2 = 2)
        ∧ ((percent_to_step raw 3).1 = 66 → (percent_to_step raw 3).2 = 2)
        ∧ ((percent_to_step raw 3).1 = 67 → (percent_to_step raw 3).2 = 3)
        ∧ ((percent_to_step raw 3).1 = 100 → (percent_to_step raw 3).2 = 3))
    ∧ (percent_to_step 255 3).2 = 3 := by
  refine ⟨?_, ?_, ?_, by decide⟩
  · have hb : byte_to_percent 0 = 0 := by decide
    simp [percent_to_step, hb, percent_to_step_core]
  · have hb : byte_to_percent 255 = 100 := by decide
    simp [percent_to_step, hb, percent_to_step_core_hundred m]
  · intro raw
    refine ⟨?_, ?_, ?_, ?_, ?_⟩ <;> intro h <;>
      simp only [percent_to_step] at h ⊢ <;> rw [h] <;> decide

/-- C2 witness at max_step 3. -/
theorem claim_C2_witness :
    (percent_to_step 0 3).2 = 0 ∧ (percent_to_step 255 3).2 = 3 :=
  ⟨(claim_C2 3 (by decide) (by decide)).1,
   (claim_C2 3 (by decide) (by decide)).2.2.2⟩

/-- C3 counterexample: the raw byte 170 clamps to percent 67, and with
    max_step = 3 the conversion already yields step 3 = max_step there, so
    the step reaches max_step at a percent other than 100, refuting the
    "only when percent == 100" direction (the spec's own CEIL example
    67 maps to 3 exhibits this). -/
theorem claim_C3_counterexample :
    ¬ ((percent_to_step 170 3).2 = 3 → (percent_to_step 170 3).1 = 100) := by
  decide

/-- C3 (amended): for every max_step in [1,255] and every clamped percent
    in [0,100], a percent of at least 1 yields a step of at least 1, and
    percent 100 yields exactly max_step; likewise for the clamped percent
    produced by `percent_to_step` from any raw byte.  The CEIL rule may
    also reach max_step below 100 percent. -/
theorem claim_C3_amended (m : Nat) (h1 : 1 ≤ m) (h2 : m ≤ 255) :
    (∀ p : Int, 0 ≤ p → p ≤ 100 →
      (1 ≤ p → 1 ≤ percent_to_step_core p m)
      ∧ (p = 100 → percent_to_step_core p m = (m : Int)))
    ∧ (∀ raw : Int,
      (1 ≤ (percent_to_step raw m).1 → 1 ≤ (percent_to_step raw m).2)
      ∧ ((percent_to_step raw m).1 = 100 →
          (percent_to_step raw m).2 = (m : Int))) := by
  have hcore : ∀ p : Int, (1 ≤ p → 1 ≤ percent_to_step_core p m)
      ∧ (p = 100 → percent_to_step_core p m = (m : Int)) := by
    intro p
    constructor
    · intro hp
      exact percent_to_step_core_pos m p h1 hp
    · intro hp
      subst hp
      exact percent_to_step_core_hundred m
  constructor
  · intro p _ _
    exact hcore p
  · intro raw
    exact hcore (byte_to_percent raw)

/-- C3 amended witness at raw byte 170 (clamped percent 67), max_step 3. -/
theorem claim_C3_amended_witness : 1 ≤ (percent_to_step 170 3).2 :=
  ((claim_C3_amended 3 (by decide) (by decide)).2 170).1 (by decide)

/-! ### Claim theorems: payload decoder -/

/-- C7: decoder behaviour on the spec's samples: a native int is returned
    as-is, hex string `0x1A` gives 26, decimal string `42` gives 42, the
    list `[7, 9]` gives its first element 7, the byte string `\x05` gives
    5, and the unparsable string and the empty list give no value. -/
theorem claim_C7 :
    (∀ n : Int, payload_to_int (Payload.pint n) = some n)
    ∧ payload_to_int (Payload.pstr ("0x1A")) = some 26
    ∧ payload_to_int (Payload.pstr ("42")) = some 42
    ∧ payload_to_int (Payload.plist [Payload.pint 7, Payload.pint 9]) = some 7
    ∧ payload_to_int (Payload.pbytes [5]) = some 5
    ∧ payload_to_int (Payload.pstr ("not-a-number")) = none
    ∧ payload_to_int (Payload.plist []) = none := by
  refine ⟨fun n => rfl, ?_, ?_, ?_, ?_, ?_, ?_⟩ <;> decide

/-- C8 counterexample: the decoder returns the native int payload -5
    unchanged, a negative value, refuting that every decoded value is
    unsigned. -/
theorem claim_C8_counterexample :
    ¬ (payload_to_int (Payload.pint (-5)) = some (-5) → (0 : Int) ≤ -5) := by
  decide

/-- C8 (amended): decoded values are non-negative for byte-string payloads
    and for string payloads carrying the `0x` marker; native int payloads
    and signed decimal strings are returned as parsed and may be
    negative. -/
theorem claim_C8_amended :
    (∀ (bs : List Nat) (v : Int),
      payload_to_int (Payload.pbytes bs) = some v → 0 ≤ v)
    ∧ (∀ (s : String) (v : Int), startsWith0x s = true →
      payload_to_int (Payload.pstr s) = some v → 0 ≤ v) := by
  constructor
  · intro bs v hv
    cases bs with
    | nil => simp [payload_to_int] at hv
    | cons b t =>
      simp only [payload_to_int, Option.some.injEq] at hv
      exact hv ▸ Int.ofNat_nonneg b
  · intro s v hx hv
    simp only [payload_to_int, hx, if_true] at hv
    exact pyIntOfString_hex_nonneg s v hx hv

/-- C8 amended witness on the byte string `\x05`. -/
theorem claim_C8_amended_witness : (0 : Int) ≤ 5 :=
  claim_C8_amended.1 [5] 5 (by decide)

/-! ### Event router lemmas -/

/-- A drop inside the per-bridge direction handler leaves the bridge
    unchanged. -/
theorem handle_for_bridge_none (debounce : ℚ) (address : String) (raw : Int)
    (now sendNow : ℚ) (b : Bridge)
    (h : (handle_for_bridge debounce address raw now sendNow b).2 = none) :
    (handle_for_bridge debounce address raw now sendNow b).1 = b := by
  unfold handle_for_bridge at h ⊢
  split_ifs at h ⊢ <;> simp_all

/-- Characterization of a successful per-bridge handling: either a percent
    send, bounded by 100 and updating only the percent timestamp, or a step
    send, bounded by max_step and updating only the step timestamp. -/
theorem handle_for_bridge_some (debounce : ℚ) (address : String) (raw : Int)
    (now sendNow : ℚ) (b : Bridge) (c : SendCall)
    (h : (handle_for_bridge debounce address raw now sendNow b).2 = some c) :
    (c.dptType = "percent" ∧ c.address = b.percent_address
      ∧ 0 ≤ c.payload ∧ c.payload ≤ 100
      ∧ (handle_for_bridge debounce address raw now sendNow b).1
          = { b with last_sent_percent_ts := sendNow })
    ∨ (c.dptType = "1byte_unsigned" ∧ c.address = b.step_address
      ∧ 0 ≤ c.payload ∧ c.payload ≤ (b.max_step : Int)
      ∧ (handle_for_bridge debounce address raw now sendNow b).1
          = { b with last_sent_step_ts := sendNow }) := by
  unfold handle_for_bridge at h ⊢
  split_ifs at h ⊢
  · left
    have hc : (send_percent b (step_to_percent raw b.max_step) sendNow).2 = c :=
      Option.some.inj h
    subst hc
    refine ⟨rfl, rfl, ?_, ?_, rfl⟩
    · exact le_max_left 0 _
    · exact max_le (by norm_num) (min_le_left _ _)
  · right
    have hc : (send_step b (percent_to_step raw b.max_step).2 sendNow).2 = c :=
      Option.some.inj h
    subst hc
    refine ⟨rfl, rfl, ?_, ?_, rfl⟩
    · exact le_max_left 0 _
    · exact max_le (Int.ofNat_nonneg _) (min_le_left _ _)

/-- A drop inside the per-bridge continuation leaves the bridge
    unchanged. -/
theorem bridgeStep_none (debounce : ℚ) (address : String) (p : Payload)
    (now sendNow : ℚ) (b : Bridge)
    (h : (bridgeStep debounce address p now sendNow b).2 = none) :
    (bridgeStep debounce address p now sendNow b).1 = b := by
  unfold bridgeStep at h ⊢
  rcases hp : payload_to_int p with _ | raw
  · rfl
  · rw [hp] at h
    exact handle_for_bridge_none debounce address raw now sendNow b h

/-- A successful per-bridge continuation decodes the payload and runs the
    direction handler. -/
theorem bridgeStep_some (debounce : ℚ) (address : String) (p : Payload)
    (now sendNow : ℚ) (b : Bridge) (c : SendCall)
    (h : (bridgeStep debounce address p now sendNow b).2 = some c) :
    ∃ raw, payload_to_int p = some raw
      ∧ bridgeStep debounce address p now sendNow b
          = handle_for_bridge debounce address raw now sendNow b := by
  unfold bridgeStep at h ⊢
  rcases hp : payload_to_int p with _ | raw
  · rw [hp] at h
    simp at h
  · exact ⟨raw, rfl, rfl⟩

/-- Routing past an address owned by no bridge is the identity. -/
theorem routeToBridge_skip (k : Bridge → Bridge × Option SendCall) :
    ∀ (bridges : List Bridge) (address : String),
      find_bridge_by_address bridges address = none →
      routeToBridge k bridges address = (bridges, none) := by
  intro bridges
  induction bridges with
  | nil => intro _ _; rfl
  | cons b rest ih =>
    intro address h
    unfold find_bridge_by_address at h
    unfold routeToBridge
    split_ifs with hc
    · rw [if_pos hc] at h
      simp at h
    · rw [if_neg hc] at h
      rw [ih address h]

/-- Routing with a continuation that never fires is the identity. -/
theorem routeToBridge_id (k : Bridge → Bridge × Option SendCall)
    (hk : ∀ b, k b = (b, none)) :
    ∀ (bridges : List Bridge) (address : String),
      routeToBridge k bridges address = (bridges, none) := by
  intro bridges
  induction bridges with
  | nil => intro _; rfl
  | cons b rest ih =>
    intro address
    unfold routeToBridge
    split_ifs with hc
    · rw [hk b]
    · rw [ih address]

/-- Routing that dispatches nothing leaves the list unchanged. -/
theorem routeToBridge_none (k : Bridge → Bridge × Option SendCall)
    (hk : ∀ b, (k b).2 = none → (k b).1 = b) :
    ∀ (bridges : List Bridge) (address : String),
      (routeToBridge k bridges address).2 = none →
      routeToBridge k bridges address = (bridges, none) := by
  intro bridges
  induction bridges with
  | nil => intro _ _; rfl
  | cons b rest ih =>
    intro address h
    unfold routeToBridge at h ⊢
    split_ifs at h ⊢ with hc
    · dsimp only at h
      simp [hk b h, h]
    · dsimp only at h
      rw [ih address h]

/-- A dispatched call decomposes the list around the resolved bridge;
    every other bridge is untouched. -/
theorem routeToBridge_some (k : Bridge → Bridge × Option SendCall) :
    ∀ (bridges : List Bridge) (address : String) (c : SendCall),
      (routeToBridge k bridges address).2 = some c →
      ∃ pre b post, bridges = pre ++ b :: post
        ∧ (routeToBridge k bridges address).1 = pre ++ (k b).1 :: post
        ∧ (k b).2 = some c := by
  intro bridges
  induction bridges with
  | nil =>
    intro address c h
    simp [routeToBridge] at h
  | cons b rest ih =>
    intro address c h
    unfold routeToBridge at h ⊢
    split_ifs at h ⊢ with hc
    · dsimp only at h
      exact ⟨[], b, rest, rfl, rfl, h⟩
    · dsimp only at h
      obtain ⟨pre, b2, post, hb1, hb2, hb3⟩ := ih address c h
      exact ⟨b :: pre, b2, post, by simp [hb1], by simp [hb2], hb3⟩

/-- Any drop of the handler returns the state unchanged with no call. -/
theorem handle_knx_event_of_none (debounce : ℚ) (bridges : List Bridge)
    (e : EventData) (now sendNow : ℚ)
    (h : (handle_knx_event debounce bridges e now sendNow).2 = none) :
    handle_knx_event debounce bridges e now sendNow = (bridges, none) := by
  unfold handle_knx_event at h ⊢
  rcases ha : effAddress e with _ | address
  · rfl
  · rw [ha] at h
    rcases hd : e.data with _ | payload
    · rfl
    · rw [hd] at h
      exact routeToBridge_none _
        (fun b hb => bridgeStep_none debounce address payload now sendNow b hb)
        bridges address h

/-! ### Fixtures for concrete router scenarios -/

/-- Fixture bridge: step address `A`, percent address `B`, max_step 3, with
    a step-direction send already recorded at time 10. -/
def demoBridge : Bridge :=
  { name := "demo", step_address := "A", percent_address := "B",
    max_step := 3, last_sent_step_ts := 10, last_sent_percent_ts := 0 }

/-- Fixture inbound event on the step address with payload 2. -/
def demoStepEvent : EventData :=
  { address := some ("A"), destination := none, data := some (Payload.pint 2) }

/-- Fixture inbound event with no address and no payload. -/
def demoEmptyEvent : EventData :=
  { address := none, destination := none, data := none }

/-- The call the fixture bridge dispatches for the fixture step event:
    66 percent (floor of 2 * 100 / 3) on the percent address. -/
def demoCall : SendCall :=
  { address := "B", payload := 66, dptType := "percent" }

/-- A step event arriving 0.3 s after the fixture's step-direction send is
    suppressed: nothing dispatched, state unchanged. -/
theorem demo_suppressed :
    handle_knx_event (1 / 2) [demoBridge] demoStepEvent (10 + 3 / 10)
      (10 + 3 / 10) = ([demoBridge], none) := by
  have haddr : ("A" : String) = demoBridge.step_address := rfl
  have hfb : handle_for_bridge (1 / 2) ("A") 2 (10 + 3 / 10) (10 + 3 / 10)
      demoBridge = (demoBridge, none) := by
    have hcond : (10 + 3 / 10 : ℚ) - demoBridge.last_sent_step_ts < 1 / 2 := by
      norm_num [demoBridge]
    unfold handle_for_bridge
    rw [if_pos haddr, if_pos hcond]
  show (routeToBridge
    (bridgeStep (1 / 2) ("A") (Payload.pint 2) (10 + 3 / 10) (10 + 3 / 10))
    [demoBridge] ("A")) = ([demoBridge], none)
  unfold routeToBridge
  rw [if_pos (Or.inl haddr)]
  have hbs : bridgeStep (1 / 2) ("A") (Payload.pint 2) (10 + 3 / 10)
      (10 + 3 / 10) demoBridge = (demoBridge, none) := by
    unfold bridgeStep
    exact hfb
  rw [hbs]

/-- A step event arriving 0.6 s after the fixture's step-direction send is
    processed: a call is dispatched. -/
theorem demo_processed :
    ((handle_knx_event (1 / 2) [demoBridge] demoStepEvent (10 + 6 / 10)
      (10 + 6 / 10)).2).isSome = true := by
  have haddr : ("A" : String) = demoBridge.step_address := rfl
  have hfb : handle_for_bridge (1 / 2) ("A") 2 (10 + 6 / 10) (10 + 6 / 10)
      demoBridge
      = ((send_percent demoBridge (step_to_percent 2 3) (10 + 6 / 10)).1,
         some (send_percent demoBridge (step_to_percent 2 3) (10 + 6 / 10)).2) := by
    have hcond : ¬ ((10 + 6 / 10 : ℚ) - demoBridge.last_sent_step_ts < 1 / 2) := by
      norm_num [demoBridge]
    unfold handle_for_bridge
    rw [if_pos haddr, if_neg hcond]
    rfl
  show ((routeToBridge
    (bridgeStep (1 / 2) ("A") (Payload.pint 2) (10 + 6 / 10) (10 + 6 / 10))
    [demoBridge] ("A")).2).isSome = true
  unfold routeToBridge
  rw [if_pos (Or.inl haddr)]
  have hbs : bridgeStep (1 / 2) ("A") (Payload.pint 2) (10 + 6 / 10)
      (10 + 6 / 10) demoBridge
      = ((send_percent demoBridge (step_to_percent 2 3) (10 + 6 / 10)).1,
         some (send_percent demoBridge (step_to_percent 2 3) (10 + 6 / 10)).2) := by
    unfold bridgeStep
    exact hfb
  rw [hbs]
  rfl

/-- With a zero debounce window the fixture step event at time 100
    dispatches exactly the 66 percent call on address `B`. -/
theorem demo_sends :
    (handle_knx_event 0 [demoBridge] demoStepEvent 100 100).2
      = some demoCall := by
  have haddr : ("A" : String) = demoBridge.step_address := rfl
  have hfb : handle_for_bridge 0 ("A") 2 100 100 demoBridge
      = ((send_percent demoBridge (step_to_percent 2 3) 100).1,
         some (send_percent demoBridge (step_to_percent 2 3) 100).2) := by
    have hcond : ¬ ((100 : ℚ) - demoBridge.last_sent_step_ts < 0) := by
      norm_num [demoBridge]
    unfold handle_for_bridge
    rw [if_pos haddr, if_neg hcond]
    rfl
  show (routeToBridge (bridgeStep 0 ("A") (Payload.pint 2) 100 100)
    [demoBridge] ("A")).2 = some demoCall
  unfold routeToBridge
  rw [if_pos (Or.inl haddr)]
  have hbs : bridgeStep 0 ("A") (Payload.pint 2) 100 100 demoBridge
      = ((send_percent demoBridge (step_to_percent 2 3) 100).1,
         some (send_percent demoBridge (step_to_percent 2 3) 100).2) := by
    unfold bridgeStep
    exact hfb
  rw [hbs]
  have hcall : (send_percent demoBridge (step_to_percent 2 3) 100).2
      = demoCall := by decide
  rw [hcall]

/-! ### Claim theorems: event router -/

/-- C4: an event that reaches the debounce check is suppressed exactly when
    `now` minus the matching direction's last-sent timestamp is strictly
    under the debounce window; concretely, with a 0.5 s window a step event
    0.3 s after a step-direction send is dropped and one 0.6 s after is
    processed. -/
theorem claim_C4 (debounce : ℚ) (address : String) (raw : Int)
    (now sendNow : ℚ) (b : Bridge) :
    (address = b.step_address →
      ((handle_for_bridge debounce address raw now sendNow b).2 = none
        ↔ now - b.last_sent_step_ts < debounce))
    ∧ (address ≠ b.step_address → address = b.percent_address →
      ((handle_for_bridge debounce address raw now sendNow b).2 = none
        ↔ now - b.last_sent_percent_ts < debounce))
    ∧ handle_knx_event (1 / 2) [demoBridge] demoStepEvent (10 + 3 / 10)
        (10 + 3 / 10) = ([demoBridge], none)
    ∧ ((handle_knx_event (1 / 2) [demoBridge] demoStepEvent (10 + 6 / 10)
        (10 + 6 / 10)).2).isSome = true := by
  refine ⟨?_, ?_, demo_suppressed, demo_processed⟩
  · intro h1
    unfold handle_for_bridge
    rw [if_pos h1]
    split_ifs with h2
    · simp [h2]
    · simp [h2]
  · intro h1 h2
    unfold handle_for_bridge
    rw [if_neg h1, if_pos h2]
    split_ifs with h3
    · simp [h3]
    · simp [h3]

/-- C4 witness: the 0.3 s echo on the step address is suppressed. -/
theorem claim_C4_witness :
    (handle_for_bridge (1 / 2) ("A") 2 (10 + 3 / 10) (10 + 3 / 10)
      demoBridge).2 = none :=
  ((claim_C4 (1 / 2) ("A") 2 (10 + 3 / 10) (10 + 3 / 10) demoBridge).1
    (by decide)).mpr (by norm_num [demoBridge])

/-- C5: every dropped event — missing or falsy address, missing payload,
    address matching no bridge, undecodable payload, and (whenever nothing
    is dispatched, debounce suppression included) — leaves the bridge list
    unchanged and dispatches no send. -/
theorem claim_C5 (debounce : ℚ) (bridges : List Bridge) (e : EventData)
    (now sendNow : ℚ) :
    ((handle_knx_event debounce bridges e now sendNow).2 = none →
      handle_knx_event debounce bridges e now sendNow = (bridges, none))
    ∧ (effAddress e = none →
      handle_knx_event debounce bridges e now sendNow = (bridges, none))
    ∧ (e.data = none →
      handle_knx_event debounce bridges e now sendNow = (bridges, none))
    ∧ (∀ a, effAddress e = some a → find_bridge_by_address bridges a = none →
      handle_knx_event debounce bridges e now sendNow = (bridges, none))
    ∧ (∀ p, e.data = some p → payload_to_int p = none →
      handle_knx_event debounce bridges e now sendNow = (bridges, none)) := by
  refine ⟨handle_knx_event_of_none debounce bridges e now sendNow,
    ?_, ?_, ?_, ?_⟩
  · intro h
    unfold handle_knx_event
    rw [h]
  · intro h
    unfold handle_knx_event
    rcases ha : effAddress e with _ | a
    · rfl
    · rw [h]
  · intro a ha hf
    unfold handle_knx_event
    rw [ha]
    rcases hd : e.data with _ | p
    · rfl
    · exact routeToBridge_skip _ bridges a hf
  · intro p hp hnone
    unfold handle_knx_event
    rcases ha : effAddress e with _ | a
    · rfl
    · rw [hp]
      refine routeToBridge_id _ ?_ bridges a
      intro b
      unfold bridgeStep
      rw [hnone]

/-- C5 witness: an event with no address and no payload is a no-op. -/
theorem claim_C5_witness :
    handle_knx_event (1 / 2) [demoBridge] demoEmptyEvent 0 0
      = ([demoBridge], none) :=
  (claim_C5 (1 / 2) [demoBridge] demoEmptyEvent 0 0).2.1 rfl

/-- C6: every dispatched call carries a non-negative payload; a percent
    call's payload is at most 100, and a step call goes out on the step
    address of an owning registered bridge with payload at most that
    bridge's max_step. -/
theorem claim_C6 (debounce : ℚ) (bridges : List Bridge) (e : EventData)
    (now sendNow : ℚ) (c : SendCall)
    (h : (handle_knx_event debounce bridges e now sendNow).2 = some c) :
    0 ≤ c.payload
    ∧ (c.dptType = "percent" → c.payload ≤ 100)
    ∧ (c.dptType = "1byte_unsigned" →
        ∃ b, b ∈ bridges ∧ c.address = b.step_address
          ∧ c.payload ≤ (b.max_step : Int)) := by
  unfold handle_knx_event at h
  rcases ha : effAddress e with _ | address
  · rw [ha] at h
    simp at h
  · rw [ha] at h
    rcases hd : e.data with _ | payload
    · rw [hd] at h
      simp at h
    · rw [hd] at h
      obtain ⟨pre, b, post, hb1, _, hb3⟩ :=
        routeToBridge_some _ bridges address c h
      obtain ⟨raw, _, hb5⟩ :=
        bridgeStep_some debounce address payload now sendNow b c hb3
      rw [hb5] at hb3
      have hmem : b ∈ bridges := by
        rw [hb1]
        exact List.mem_append_right _ (List.mem_cons_self _ _)
      rcases handle_for_bridge_some debounce address raw now sendNow b c hb3
        with ⟨hdpt, _, hpos, hle, _⟩ | ⟨hdpt, haddr, hpos, hle, _⟩
      · refine ⟨hpos, fun _ => hle, fun hstep => ?_⟩
        rw [hdpt] at hstep
        exact absurd hstep (by decide)
      · refine ⟨hpos, fun hpct => ?_, fun _ => ⟨b, hmem, haddr, hle⟩⟩
        rw [hdpt] at hpct
        exact absurd hpct (by decide)

/-- C6 witness: the fixture step event dispatches the bounded 66 percent
    call. -/
theorem claim_C6_witness :
    0 ≤ demoCall.payload
    ∧ (demoCall.dptType = "percent" → demoCall.payload ≤ 100)
    ∧ (demoCall.dptType = "1byte_unsigned" →
        ∃ b, b ∈ [demoBridge] ∧ demoCall.address = b.step_address
          ∧ demoCall.payload ≤ (b.max_step : Int)) :=
  claim_C6 0 [demoBridge] demoStepEvent 100 100 demoCall demo_sends

/-- C10: handling one event preserves every bridge's name, addresses and
    max_step; a drop leaves the whole list untouched; a dispatched call
    rewrites exactly one bridge, setting exactly the matching timestamp
    field to the send-time clock and leaving all of its other fields (the
    other timestamp included) unchanged. -/
theorem claim_C10 (debounce : ℚ) (bridges : List Bridge) (e : EventData)
    (now sendNow : ℚ) :
    List.Forall₂ (fun b b2 => b2.name = b.name
        ∧ b2.step_address = b.step_address
        ∧ b2.percent_address = b.percent_address
        ∧ b2.max_step = b.max_step)
      bridges (handle_knx_event debounce bridges e now sendNow).1
    ∧ ((handle_knx_event debounce bridges e now sendNow).2 = none →
        (handle_knx_event debounce bridges e now sendNow).1 = bridges)
    ∧ (∀ c, (handle_knx_event debounce bridges e now sendNow).2 = some c →
        ∃ pre b post, bridges = pre ++ b :: post
          ∧ ((c.dptType = "percent"
              ∧ (handle_knx_event debounce bridges e now sendNow).1
                  = pre ++ { b with last_sent_percent_ts := sendNow } :: post)
            ∨ (c.dptType = "1byte_unsigned"
              ∧ (handle_knx_event debounce bridges e now sendNow).1
                  = pre ++ { b with last_sent_step_ts := sendNow } :: post))) := by
  have hnone : (handle_knx_event debounce bridges e now sendNow).2 = none →
      (handle_knx_event debounce bridges e now sendNow).1 = bridges := by
    intro h
    rw [handle_knx_event_of_none debounce bridges e now sendNow h]
  have key : ∀ c, (handle_knx_event debounce bridges e now sendNow).2 = some c →
      ∃ pre b post, bridges = pre ++ b :: post
        ∧ ((c.dptType = "percent"
            ∧ (handle_knx_event debounce bridges e now sendNow).1
                = pre ++ { b with last_sent_percent_ts := sendNow } :: post)
          ∨ (c.dptType = "1byte_unsigned"
            ∧ (handle_knx_event debounce bridges e now sendNow).1
                = pre ++ { b with last_sent_step_ts := sendNow } :: post)) := by
    intro c h
    rcases ha : effAddress e with _ | address
    · rw [show handle_knx_event debounce bridges e now sendNow = (bridges, none) by
        unfold handle_knx_event; rw [ha]] at h
      simp at h
    · rcases hd : e.data with _ | payload
      · rw [show handle_knx_event debounce bridges e now sendNow = (bridges, none) by
          unfold handle_knx_event; rw [ha, hd]] at h
        simp at h
      · have heq : handle_knx_event debounce bridges e now sendNow
            = routeToBridge (bridgeStep debounce address payload now sendNow)
                bridges address := by
          unfold handle_knx_event
          rw [ha, hd]
        rw [heq] at h
        obtain ⟨pre, b, post, hb1, hb2, hb3⟩ :=
          routeToBridge_some _ bridges address c h
        obtain ⟨raw, _, hb5⟩ :=
          bridgeStep_some debounce address payload now sendNow b c hb3
        rw [hb5] at hb3
        rcases handle_for_bridge_some debounce address raw now sendNow b c hb3
          with ⟨hdpt, _, _, _, hupd⟩ | ⟨hdpt, _, _, _, hupd⟩
        · refine ⟨pre, b, post, hb1, Or.inl ⟨hdpt, ?_⟩⟩
          rw [heq, hb2, hb5, hupd]
        · refine ⟨pre, b, post, hb1, Or.inr ⟨hdpt, ?_⟩⟩
          rw [heq, hb2, hb5, hupd]
  refine ⟨?_, hnone, key⟩
  rcases hov : (handle_knx_event debounce bridges e now sendNow).2 with _ | c
  · rw [hnone hov]
    exact List.forall₂_same.mpr (fun x _ => ⟨rfl, rfl, rfl, rfl⟩)
  · obtain ⟨pre, b, post, hb1, hcase⟩ := key c hov
    rcases hcase with ⟨_, hupd⟩ | ⟨_, hupd⟩ <;> rw [hupd, hb1] <;>
      exact List.rel_append (List.forall₂_same.mpr (fun x _ => ⟨rfl, rfl, rfl, rfl⟩))
        (List.Forall₂.cons ⟨rfl, rfl, rfl, rfl⟩
          (List.forall₂_same.mpr (fun x _ => ⟨rfl, rfl, rfl, rfl⟩)))

/-- C10 witness: the suppressed fixture event leaves the bridge list
    unchanged. -/
theorem claim_C10_witness :
    (handle_knx_event (1 / 2) [demoBridge] demoStepEvent (10 + 3 / 10)
      (10 + 3 / 10)).1 = [demoBridge] :=
  (claim_C10 (1 / 2) [demoBridge] demoStepEvent (10 + 3 / 10)
    (10 + 3 / 10)).2.1 (by rw [demo_suppressed])

end KnxStepBridge
